import Mathlib

/-!
Verification of the pdflu metadata-extraction and ranking core.

The definitions below are shallow embeddings of the Python functions in
`src/pdflu/parse.py`, `src/pdflu/search.py` and `src/pdflu/utilities.py`.
Python strings are modelled as Lean `String`; `None` as `Option.none`;
Python exceptions as `Except` results.  All definitions are computable so
that concrete witnesses can be evaluated by `decide` or `rfl`.
-/

namespace Pdflu

/-! ## Data model: `Metadata` (parse.py, class Metadata) -/

/-- PDF metadata: four optional string fields, all `None` by default,
mirroring `Metadata.__init__` in parse.py. -/
structure Metadata where
  title : Option String := none
  author : Option String := none
  arxiv_id : Option String := none
  doi : Option String := none
deriving DecidableEq, Repr

/-- Python truthiness of an optional string: `None` and `""` are falsy,
every other string is truthy.  This is the test used by each
`if pdf_text.title:` style guard in `parse_pdf`. -/
def truthy : Option String → Bool
  | none => false
  | some s => s != ""

/-- Specification-side helper: the first truthy value of a priority list,
or `none` when every entry is falsy. -/
def firstTruthy (l : List (Option String)) : Option String :=
  (l.find? truthy).join

/-! ## Metadata merger (parse.py, `parse_pdf`, lines 85-114)

`parse_pdf` builds a fresh `Metadata()` and fills each field with an
`if/elif` chain over the three sources.  The chains are independent per
field, so the merge is a pure function of the three source records. -/

/-- The field-merging tail of `parse_pdf`: combine the text-derived,
document-metadata-derived and filename-derived records with the fixed
per-field priority chains of parse.py lines 86-113. -/
def parse_pdf_merge (pdf_text pdf_metadata filename : Metadata) : Metadata :=
  { title :=
      if truthy pdf_text.title then pdf_text.title
      else if truthy pdf_metadata.title then pdf_metadata.title
      else if truthy filename.title then filename.title
      else none
    author :=
      if truthy pdf_metadata.author then pdf_metadata.author
      else if truthy pdf_text.author then pdf_text.author
      else if truthy filename.author then filename.author
      else none
    arxiv_id :=
      if truthy pdf_text.arxiv_id then pdf_text.arxiv_id
      else if truthy filename.arxiv_id then filename.arxiv_id
      else if truthy pdf_metadata.arxiv_id then pdf_metadata.arxiv_id
      else none
    doi :=
      if truthy pdf_metadata.doi then pdf_metadata.doi
      else if truthy pdf_text.doi then pdf_text.doi
      else if truthy filename.doi then filename.doi
      else none }

/-! ## Title building (parse.py, `_parse_pdf_text`, lines 310-319)

After the page scan, `_parse_pdf_text` holds two parallel lists
`text_chunks` / `text_sizes`; we model the pair `zip(text_chunks,
text_sizes)` as a single `List (String × Int)`.  The tail then computes
`threshold_size = max(text_sizes)` — which raises `ValueError` on an
empty list, caught nowhere — and folds over the candidates, appending
`' ' + chunk` whenever the chunk's size reaches the threshold and the
grown string stays within `max_chars`. -/

/-- Python whitespace characters stripped by `str.strip()`. -/
def pyIsSpace (c : Char) : Bool :=
  c == ' ' || c == '\t' || c == '\n' || c == '\r' || c == '\x0b' || c == '\x0c'

/-- `str.strip()`: drop whitespace from both ends. -/
def pyStrip (s : String) : String :=
  ⟨((s.data.dropWhile pyIsSpace).reverse.dropWhile pyIsSpace).reverse⟩

/-- One iteration of the title-building loop (parse.py lines 314-317):
append `' ' + chunk` when `size >= threshold_size` and the result still
fits in `max_chars`; otherwise leave the accumulator unchanged. -/
def titleStep (maxChars : Nat) (thr : Int) (q : String) (c : String × Int) : String :=
  if thr ≤ c.2 then
    (if (q ++ " " ++ c.1).length ≤ maxChars then q ++ " " ++ c.1 else q)
  else q

/-- The whole title-building loop, starting from `query = ''`. -/
def buildQuery (cands : List (String × Int)) (thr : Int) (maxChars : Nat) : String :=
  cands.foldl (titleStep maxChars thr) ""

/-- The post-scan tail of `_parse_pdf_text` (parse.py lines 310-319):
`threshold_size = max(text_sizes)` followed by the loop and
`query.strip()`.  `max` of an empty sequence raises `ValueError`, which
no handler in `_parse_pdf_text` catches (only `PDFSyntaxError` is), so
the empty-candidate case is an `Except.error`. -/
def titleFromCandidates (cands : List (String × Int)) (maxChars : Nat) :
    Except String String :=
  match (cands.map Prod.snd).max? with
  | none => .error "ValueError: max() arg is an empty sequence"
  | some thr => .ok (pyStrip (buildQuery cands thr maxChars))

/-- Specification-side helper: concatenation of a list of strings
separated by a single space. -/
def sepSpace : List String → String
  | [] => ""
  | [c] => c
  | c :: c2 :: rest => c ++ " " ++ sepSpace (c2 :: rest)

/-- Helper describing the raw accumulated string of the title-building
loop when no candidate overflows: every contributing chunk preceded by
one space (the loop appends `' ' + chunk`). -/
def prefJoin : List String → String
  | [] => ""
  | c :: rest => " " ++ c ++ prefJoin rest

/-- A chunk as recorded by the scan loop: nonempty, with no leading or
trailing whitespace (parse.py line 288 normalizes each recorded chunk
with `re.sub` and `strip`). -/
def cleanChunk (s : String) : Bool :=
  match s.data with
  | [] => false
  | c :: rest => !pyIsSpace c && !pyIsSpace ((c :: rest).getLastD ' ')

/-! ## String utilities (utilities.py) -/

/-- The characters kept by `clean_string_for_key`
(`string.ascii_lowercase + string.digits + '_'`). -/
def valid_key_chars : List Char :=
  "abcdefghijklmnopqrstuvwxyz0123456789_".data

/-- `clean_string_for_key` (utilities.py lines 8-17): lowercase, replace
spaces with underscores, keep only lowercase letters, digits and
underscores. -/
def clean_string_for_key (s : String) : String :=
  ⟨((s.data.map Char.toLower).map (fun c => if c == ' ' then '_' else c)).filter
    (fun c => c ∈ valid_key_chars)⟩

/-- The characters kept by `clean_string_for_query`
(`string.ascii_lowercase + string.digits + ' '`). -/
def valid_query_chars : List Char :=
  "abcdefghijklmnopqrstuvwxyz0123456789 ".data

/-- The per-character action of `clean_string_for_query`: lowercase,
then keep the character when it is a lowercase ASCII letter, digit or
space, and replace it by a space otherwise. -/
def cleanQueryChar (c : Char) : Char :=
  let d := c.toLower
  if d ∈ valid_query_chars then d else ' '

/-- `clean_string_for_query` (utilities.py lines 20-37) on a non-`None`
string: apply `cleanQueryChar` to every character of the lowercased
string. -/
def clean_string_for_query (s : String) : String :=
  ⟨s.data.map cleanQueryChar⟩

/-! ## Python `str.split` / `str.join` -/

/-- Fuel-driven worker for `str.split(sep)` with a nonempty separator:
split at each occurrence of `sep`, keeping empty pieces.  The fuel is an
upper bound on the remaining length, so with fuel `s.length` the
fallback branch is unreachable. -/
def pySplitAux (sep : List Char) : Nat → List Char → List Char → List (List Char)
  | _, [], acc => [acc.reverse]
  | 0, s, acc => [acc.reverse ++ s]
  | n + 1, c :: rest, acc =>
    if sep.isPrefixOf (c :: rest) then
      acc.reverse :: pySplitAux sep n ((c :: rest).drop sep.length) []
    else
      pySplitAux sep n rest (c :: acc)

/-- Python `s.split(sep)` for a nonempty separator `sep`. -/
def pySplit (s : String) (sep : String) : List String :=
  (pySplitAux sep.data s.data.length s.data []).map List.asString

/-- Python `sep.join(l)`. -/
def pyJoin (sep : String) : List String → String
  | [] => ""
  | s :: rest => rest.foldl (fun acc x => acc ++ sep ++ x) s

/-- `s.split(' ')[0]`: the first space-delimited word of `s` (`split`
always returns a nonempty list, whose head is `""` for `s = ""`). -/
def firstWord (s : String) : String :=
  (pySplit s " ").headD ""

/-! ## Search results (search.py) -/

/-- Python exceptions that the modelled functions can raise. -/
inductive PyErr where
  | indexError
  | stopIteration
deriving DecidableEq, Repr

/-- The capability set `{title, author, doi}` a ranked search result
exposes (search.py, class SearchResult). -/
structure SearchResult where
  title : String
  author : String
  doi : String
deriving DecidableEq, Repr

/-- One author record of a raw Crossref item: the `given` and `family`
fields, `""` when absent (`entry.get('given', '')`). -/
structure CrossrefAuthor where
  given : String
  family : String
deriving DecidableEq, Repr

/-- A raw Crossref item, restricted to the fields `CrossrefResult` reads;
each field holds the value of the corresponding `raw.get` call, so the
defaults (`['']` for a missing title key, `[]` for a missing author key,
`''` for a missing DOI key) are already applied — but a `title` key that
is present with an empty list stays `[]`. -/
structure CrossrefRaw where
  title : List String
  author : List CrossrefAuthor
  doi : String
deriving DecidableEq, Repr

/-- `CrossrefResult.title`: `raw.get('title', [''])[0]` (search.py line
71).  The `[0]` subscript raises `IndexError` when the record carries a
`title` key whose list is empty — the `['']` default only covers a
missing key. -/
def crossref_title (r : CrossrefRaw) : Except PyErr String :=
  match r.title with
  | [] => .error .indexError
  | t :: _ => .ok t

/-- `CrossrefResult.author` (search.py lines 74-87): per author join the
nonempty name parts `given family` with a space, then join the authors
with `' and '`. -/
def crossref_author (r : CrossrefRaw) : String :=
  pyJoin " and " (r.author.map (fun a =>
    pyJoin " " ((if a.given == "" then [] else [a.given]) ++
      (if a.family == "" then [] else [a.family]))))

/-- `CrossrefResult.doi`: `raw.get('DOI', '')`. -/
def crossref_doi (r : CrossrefRaw) : String :=
  r.doi

/-- Outcome of `CrossrefResult.get_entry`: either a locally synthesized
`@misc` record (the DOI-less branch, search.py lines 97-112, no network
access) or a content-negotiation fetch for the given DOI (lines 113-124,
a network call). -/
inductive EntryResult where
  | synthesized (key title author : String)
  | networkFetch (doi : String)
deriving DecidableEq, Repr

/-- `CrossrefResult.get_entry` on a cold cache (search.py lines 94-125):
with an empty DOI, build the entry locally with key
`clean_string_for_key(author.split(' ')[0] + '_' + title.split(' ')[0])`;
otherwise fetch by DOI over the network.  The empty-DOI branch reads
`self.title` (line 99), so it propagates the `IndexError` of an
empty title list instead of synthesizing an entry. -/
def get_entry (r : CrossrefRaw) : Except PyErr EntryResult :=
  if crossref_doi r == "" then
    match crossref_title r with
    | .error e => .error e
    | .ok t =>
      .ok (.synthesized
        (clean_string_for_key
          (firstWord (crossref_author r) ++ "_" ++ firstWord t))
        t (crossref_author r))
  else
    .ok (.networkFetch (crossref_doi r))

/-! ## Result ranking (search.py, `rank_results`, lines 257-279) -/

/-- The per-candidate score: the number of words of the cleaned query
(split on `' '`) that occur in the candidate's cleaned title words
(split on `' '`) or in its cleaned author string split on `' and '`. -/
def score (query : String) (r : SearchResult) : Nat :=
  let query_words := pySplit (clean_string_for_query query) " "
  let title_words := pySplit (clean_string_for_query r.title) " "
  let author_words := pySplit (clean_string_for_query r.author) " and "
  query_words.countP (fun w => title_words.contains w || author_words.contains w)

/-- The comparison used to sort `(count, result)` pairs: descending on
the count, comparing counts only (the `key=lambda pair: pair[0],
reverse=True` arguments of `sorted`). -/
def descLe (p q : Nat × SearchResult) : Bool :=
  decide (q.1 ≤ p.1)

/-- `rank_results`: score every candidate, zip scores with candidates,
and stable-sort the pairs by score in descending order (Python's
`sorted(..., key=lambda pair: pair[0], reverse=True)` is a stable sort
that compares keys only); finally drop the scores.  `List.mergeSort`
with the reflexive, total relation `descLe` is exactly that stable
descending sort. -/
def rank_results (results : List SearchResult) (query : String) :
    List SearchResult :=
  let common_words := results.map (fun r => score query r)
  ((common_words.zip results).mergeSort descLe).map Prod.snd

/-! ## PDF document-metadata extractor (parse.py, `_parse_pdf_metadata`)

The function is embedded as a function of an abstract parsed document.
The arXiv/DOI regular-expression matchers are taken as parameters
(`String → Option String`, the first capture group or `None`): none of
the verified claims depends on the matchers themselves, only on the
control flow around them. -/

/-- A first-page link annotation, reduced to what line 164 reads:
`annotation.resolve().get('A', {}).get('URI', None)` decoded as UTF-8.
`none` covers a missing `A`/`URI` key and an undecodable value (the
`AttributeError` on `.decode`, which line 168 turns into `continue`). -/
structure AnnotModel where
  uri : Option String
deriving DecidableEq, Repr

/-- A page, reduced to its `annots` attribute; `none` models a falsy
`first_page.annots`. -/
structure PageModel where
  annots : Option (List AnnotModel)
deriving DecidableEq, Repr

/-- One document information dictionary (`doc.info[i]`): keys mapped to
their decoded values; `none` models a value that is not a byte string
(the `AttributeError` branches). -/
structure PDFInfoDict where
  entries : List (String × Option String)
deriving DecidableEq, Repr

/-- The parsed low-level document: whether construction raised
`PDFSyntaxError`, the pages yielded by `PDFPage.create_pages`, and the
`doc.info` list (one entry per trailer carrying an `Info` key — possibly
empty). -/
structure PDFDocModel where
  syntaxError : Bool
  pages : List PageModel
  info : List PDFInfoDict
deriving DecidableEq, Repr

/-- `info[key]` followed by `.decode`: the looked-up decoded value. -/
def infoLookup (d : PDFInfoDict) (key : String) : Option String :=
  (d.entries.find? (fun e => e.1 == key)).bind Prod.snd

/-- `_parse_pdf_metadata` (parse.py lines 139-217), parametrized by the
two regex matchers it uses (`new_arxiv_name_re` for annotation URIs, and
the text/old-text/DOI matchers for info values).  The model keeps the
code's exception structure: `PDFSyntaxError` on construction is caught
and yields an empty `Metadata`; `next` on a pageless document raises
`StopIteration`; per-annotation failures are skipped; `doc.info[0]` on
an empty info list raises `IndexError`, which no handler catches (the
surrounding `try` blocks catch only `KeyError` and `AttributeError`). -/
def parse_pdf_metadata (matchName matchNewText matchOldText matchDoi :
    String → Option String) (doc : PDFDocModel) : Except PyErr Metadata :=
  if doc.syntaxError then .ok {}
  else
    match doc.pages with
    | [] => .error .stopIteration
    | page :: _ =>
      let annotArxiv : Option String :=
        match page.annots with
        | none => none
        | some as_ =>
          as_.foldl (fun acc a =>
            match acc with
            | some v => some v
            | none =>
              match a.uri with
              | none => none
              | some u => matchName u) none
      match doc.info with
      | [] => .error .indexError
      | info0 :: _ =>
        let title :=
          match infoLookup info0 "Title" with
          | some t => if t == "" then none else some t
          | none => none
        let author :=
          match infoLookup info0 "Author" with
          | some a => if a == "" then none else some a
          | none => none
        let arxiv := info0.entries.foldl (fun acc e =>
          match e.2 with
          | none => acc
          | some v =>
            match acc with
            | some x => some x
            | none =>
              match matchNewText v with
              | some i => some i
              | none => matchOldText v) annotArxiv
        let doi := info0.entries.foldl (fun acc e =>
          match e.2 with
          | none => acc
          | some v =>
            match acc with
            | some x => some x
            | none => matchDoi v) none
        .ok { title := title, author := author, arxiv_id := arxiv, doi := doi }

/-! ## Helper lemmas -/

theorem ite_eq_firstTruthy (a b c : Option String) :
    (if truthy a then a else if truthy b then b
     else if truthy c then c else none) = firstTruthy [a, b, c] := by
  cases ha : truthy a <;> cases hb : truthy b <;> cases hc : truthy c <;>
    simp [firstTruthy, List.find?, ha, hb, hc]

theorem all_valid_query_toLower_fixed :
    valid_query_chars.all (fun c => c.toLower == c) = true := by decide

theorem toLower_fixed_of_valid {c : Char} (h : c ∈ valid_query_chars) :
    c.toLower = c := by
  have := List.all_eq_true.mp all_valid_query_toLower_fixed c h
  exact eq_of_beq this

theorem cleanQueryChar_mem_valid (c : Char) :
    cleanQueryChar c ∈ valid_query_chars := by
  unfold cleanQueryChar
  by_cases h : c.toLower ∈ valid_query_chars
  · simp [h]
  · simp only [h, if_neg, if_false]
    decide

theorem cleanQueryChar_idem (c : Char) :
    cleanQueryChar (cleanQueryChar c) = cleanQueryChar c := by
  have hmem := cleanQueryChar_mem_valid c
  unfold cleanQueryChar at *
  rw [toLower_fixed_of_valid hmem]
  simp [hmem]

theorem descLe_trans : ∀ a b c : Nat × SearchResult,
    descLe a b → descLe b c → descLe a c := by
  intro a b c h1 h2
  simp only [descLe, decide_eq_true_eq] at *
  omega

theorem descLe_total : ∀ a b : Nat × SearchResult, descLe a b || descLe b a := by
  intro a b
  simp only [descLe, Bool.or_eq_true, decide_eq_true_eq]
  exact Nat.le_total b.1 a.1

theorem zip_map_self {α β : Type} (f : α → β) (l : List α) :
    (l.map f).zip l = l.map (fun a => (f a, a)) := by
  induction l with
  | nil => rfl
  | cons a t ih => simp [ih]

/-! ## Claim theorems -/

/-- C1: `parse_pdf` merges the three source `Metadata` records field by
field with the fixed priority orders (title: text > document metadata >
filename; author: document metadata > text > filename; arXiv ID: text >
filename > document metadata; DOI: document metadata > text > filename);
a lower-priority source fills a field only when every higher-priority
source leaves it unset (falsy). -/
theorem parse_pdf_merge_priority (t m f : Metadata) :
    (parse_pdf_merge t m f).title = firstTruthy [t.title, m.title, f.title] ∧
    (parse_pdf_merge t m f).author = firstTruthy [m.author, t.author, f.author] ∧
    (parse_pdf_merge t m f).arxiv_id =
      firstTruthy [t.arxiv_id, f.arxiv_id, m.arxiv_id] ∧
    (parse_pdf_merge t m f).doi = firstTruthy [m.doi, t.doi, f.doi] :=
  ⟨ite_eq_firstTruthy _ _ _, ite_eq_firstTruthy _ _ _,
   ite_eq_firstTruthy _ _ _, ite_eq_firstTruthy _ _ _⟩

/-- C2 (amended): the title-building loop never stops.  A candidate that
would overflow `max_chars` is skipped without truncating the accumulated
title, but every later candidate is still considered on its own: the
last candidate of the list is appended exactly when its font size
reaches the threshold and the grown string fits, regardless of whether
any earlier candidate was skipped. -/
theorem buildQuery_last_step (cands : List (String × Int)) (c : String × Int)
    (thr : Int) (maxChars : Nat) :
    buildQuery (cands ++ [c]) thr maxChars =
      (if thr ≤ c.2 ∧
          (buildQuery cands thr maxChars ++ " " ++ c.1).length ≤ maxChars
       then buildQuery cands thr maxChars ++ " " ++ c.1
       else buildQuery cands thr maxChars) := by
  simp only [buildQuery, List.foldl_append, List.foldl, titleStep]
  split_ifs <;> first
    | rfl
    | tauto

/-- C2 (counterexample): with candidates `"abcde"`, `"fghijklmn"`,
`"xyz"` all at font size 10 and `max_chars = 10`, appending
`"fghijklmn"` would overflow and it is skipped — yet the later, shorter
candidate `"xyz"` is still appended, so the built title is
`"abcde xyz"`, not the `"abcde"` the claim's stopping rule predicts. -/
theorem title_cap_no_stop_counterexample :
    titleFromCandidates [("abcde", 10), ("fghijklmn", 10), ("xyz", 10)] 10 =
      .ok "abcde xyz" ∧ ("abcde xyz" : String) ≠ "abcde" := by
  exact ⟨rfl, by decide⟩

/-- C3: with zero recorded title candidates the post-scan tail of
`_parse_pdf_text` evaluates `max(text_sizes)` on an empty list, which
raises `ValueError`; the only handler in the function catches
`PDFSyntaxError`, so the exception propagates instead of an empty
`Metadata` being returned. -/
theorem no_candidates_raises_value_error (maxChars : Nat) :
    titleFromCandidates [] maxChars =
      .error "ValueError: max() arg is an empty sequence" := rfl

/-- C9: for every string `s`, `clean_string_for_query s` contains only
lowercase ASCII letters, digits and spaces, and `clean_string_for_query`
is idempotent. -/
theorem clean_query_valid_and_idem (s : String) :
    (∀ c ∈ (clean_string_for_query s).data, c ∈ valid_query_chars) ∧
      clean_string_for_query (clean_string_for_query s) =
        clean_string_for_query s := by
  constructor
  · intro c hc
    simp only [clean_string_for_query] at hc
    obtain ⟨a, -, rfl⟩ := List.mem_map.mp hc
    exact cleanQueryChar_mem_valid a
  · simp only [clean_string_for_query, List.map_map]
    exact congrArg String.mk
      (List.map_congr_left fun a _ => cleanQueryChar_idem a)

/-- C9 (witness): the theorem applied at the concrete string
`"Hello, World!"` and the concrete output character `'h'`. -/
theorem clean_query_valid_and_idem_witness :
    'h' ∈ valid_query_chars ∧
      clean_string_for_query (clean_string_for_query "Hello, World!") =
        clean_string_for_query "Hello, World!" :=
  ⟨(clean_query_valid_and_idem "Hello, World!").1 'h' (by decide),
   (clean_query_valid_and_idem "Hello, World!").2⟩

theorem rank_results_eq_sorted_pairs (results : List SearchResult)
    (query : String) :
    rank_results results query =
      ((results.map (fun r => (score query r, r))).mergeSort descLe).map
        Prod.snd := by
  simp only [rank_results]
  rw [zip_map_self]

/-- C5: `rank_results` scores each candidate by the number of
space-delimited tokens of the normalized query found verbatim among the
candidate's normalized title tokens or its author segments split on
`' and '` (the `score` function), and returns the candidates in
descending score order, candidates of equal score keeping their original
relative order. -/
theorem rank_results_sorted_stable (results : List SearchResult)
    (query : String) :
    (rank_results results query).Pairwise
        (fun a b => score query b ≤ score query a) ∧
      ∀ a b : SearchResult, List.Sublist [a, b] results →
        score query a = score query b →
        List.Sublist [a, b] (rank_results results query) := by
  constructor
  · rw [rank_results_eq_sorted_pairs, List.pairwise_map]
    have hs := List.sorted_mergeSort descLe_trans descLe_total
      (results.map (fun r => (score query r, r)))
    have hmem : ∀ p ∈ (results.map
        (fun r => (score query r, r))).mergeSort descLe,
        p.1 = score query p.2 := by
      intro p hp
      rw [List.mem_mergeSort] at hp
      obtain ⟨r, -, rfl⟩ := List.mem_map.mp hp
      rfl
    refine hs.imp_of_mem ?_
    intro a b ha hb h
    have h' : b.1 ≤ a.1 := by simpa [descLe] using h
    rw [hmem a ha, hmem b hb] at h'
    exact h'
  · intro a b hsub heq
    rw [rank_results_eq_sorted_pairs]
    have hsub2 : List.Sublist [(score query a, a), (score query b, b)]
        (results.map (fun r => (score query r, r))) := by
      simpa using hsub.map (fun r => (score query r, r))
    have hab : descLe (score query a, a) (score query b, b) := by
      simp [descLe, heq]
    have hst := List.pair_sublist_mergeSort descLe_trans descLe_total hab hsub2
    simpa using hst.map Prod.snd

/-- C5 (witness): for the query of the spec's ranking example and two
equal-score candidates, the stability part of the theorem applied at
concrete inputs keeps their original relative order in the output. -/
theorem rank_results_sorted_stable_witness :
    List.Sublist
      [SearchResult.mk "A Survey" "" "", SearchResult.mk "Deep Learning" "" ""]
      (rank_results
        [SearchResult.mk "Attention Is All You Need" "" "",
         SearchResult.mk "A Survey" "" "",
         SearchResult.mk "Deep Learning" "" ""]
        "attention is all you need") :=
  (rank_results_sorted_stable
      [SearchResult.mk "Attention Is All You Need" "" "",
       SearchResult.mk "A Survey" "" "",
       SearchResult.mk "Deep Learning" "" ""]
      "attention is all you need").2
    (SearchResult.mk "A Survey" "" "") (SearchResult.mk "Deep Learning" "" "")
    ((List.Sublist.refl _).cons _) (by decide)

/-- C10: `rank_results` returns a permutation of its input list — the
ranking never drops, duplicates, or invents a candidate. -/
theorem rank_results_perm (results : List SearchResult) (query : String) :
    (rank_results results query).Perm results := by
  rw [rank_results_eq_sorted_pairs]
  have h := (List.mergeSort_perm
    (results.map (fun r => (score query r, r))) descLe).map Prod.snd
  simpa [List.map_map, Function.comp_def] using h

/-- The empty-DOI branch of `get_entry` raises on a record whose title
list is present but empty: `self.title` (search.py line 99 via line 71,
`raw.get('title', [''])[0]`) raises `IndexError`, so no entry is
synthesized for such a record. -/
theorem get_entry_empty_title_raises :
    get_entry (CrossrefRaw.mk [] [] "") = .error .indexError := rfl

/-- C6 (amended): for every Crossref result whose DOI is empty and whose
title property does not raise (the raw title list is nonempty — on an
empty title list `raw.get('title', [''])[0]` raises `IndexError` before
anything is synthesized), `get_entry` synthesizes the bibliography entry
locally — no network fetch — and the generated key is the first
space-delimited word of the author string (the first author's given
name when one is present, not the surname) joined by an underscore to
the first title word, passed through the key-cleaning rule (lowercase,
spaces to underscores, invalid characters removed). -/
theorem get_entry_empty_doi_local (r : CrossrefRaw) (t : String)
    (hd : crossref_doi r = "") (ht : crossref_title r = .ok t) :
    get_entry r = .ok (.synthesized
      (clean_string_for_key
        (firstWord (crossref_author r) ++ "_" ++ firstWord t))
      t (crossref_author r)) := by
  simp [get_entry, hd, ht]

/-- C6 (witness): the amended theorem applied to a concrete DOI-less
result with a nonempty title list. -/
theorem get_entry_empty_doi_local_witness :
    crossref_doi (CrossrefRaw.mk ["Deep Learning"]
        [CrossrefAuthor.mk "Yann" "LeCun"] "") = "" ∧
      crossref_title (CrossrefRaw.mk ["Deep Learning"]
        [CrossrefAuthor.mk "Yann" "LeCun"] "") = .ok "Deep Learning" ∧
      get_entry (CrossrefRaw.mk ["Deep Learning"]
          [CrossrefAuthor.mk "Yann" "LeCun"] "") =
        .ok (.synthesized "yann_deep" "Deep Learning" "Yann LeCun") :=
  ⟨rfl, rfl, by
    rw [get_entry_empty_doi_local (CrossrefRaw.mk ["Deep Learning"]
      [CrossrefAuthor.mk "Yann" "LeCun"] "") "Deep Learning" rfl rfl]
    rfl⟩

/-- C6 (counterexample): for the DOI-less result with first author given
name `"Ashish"`, family name `"Vaswani"` and title
`"Attention Is All You Need"`, the synthesized key is
`"ashish_attention"` — built from the author string's first word, the
given name — and not the `"vaswani_attention"` that the claimed
surname rule would produce. -/
theorem get_entry_key_counterexample :
    get_entry (CrossrefRaw.mk ["Attention Is All You Need"]
        [CrossrefAuthor.mk "Ashish" "Vaswani"] "") =
      .ok (.synthesized "ashish_attention" "Attention Is All You Need"
        "Ashish Vaswani") ∧
      ("ashish_attention" : String) ≠ "vaswani_attention" :=
  ⟨rfl, by decide⟩

/-- C7: a syntactically valid document whose `doc.info` list is empty —
a real PDF with no `Info` key in any trailer — drives
`_parse_pdf_metadata` into `doc.info[0]` (parse.py line 182), which
raises `IndexError`; the surrounding handlers catch only `KeyError` and
`AttributeError`, so the exception propagates instead of a `Metadata`
being returned. -/
theorem pdf_metadata_empty_info_raises :
    parse_pdf_metadata (fun _ => none) (fun _ => none) (fun _ => none)
        (fun _ => none) (PDFDocModel.mk false [PageModel.mk none] []) =
      .error .indexError := rfl

theorem foldl_titleStep_length (maxChars : Nat) (thr : Int) :
    ∀ (l : List (String × Int)) (q : String), q.length ≤ maxChars →
      (l.foldl (titleStep maxChars thr) q).length ≤ maxChars := by
  intro l
  induction l with
  | nil => intro q hq; simpa using hq
  | cons c t ih =>
    intro q hq
    simp only [List.foldl]
    apply ih
    unfold titleStep
    split_ifs with h1 h2
    · exact h2
    · exact hq
    · exact hq

theorem pyStrip_length_le (s : String) : (pyStrip s).length ≤ s.length := by
  simp only [pyStrip, String.length]
  calc (((s.data.dropWhile pyIsSpace).reverse.dropWhile pyIsSpace).reverse).length
      = ((s.data.dropWhile pyIsSpace).reverse.dropWhile pyIsSpace).length := by
        rw [List.length_reverse]
    _ ≤ (s.data.dropWhile pyIsSpace).reverse.length := (List.dropWhile_sublist _).length_le
    _ = (s.data.dropWhile pyIsSpace).length := by rw [List.length_reverse]
    _ ≤ s.data.length := (List.dropWhile_sublist _).length_le

/-- C8: whenever the title-building tail of `_parse_pdf_text` returns a
title, that title is at most `max_chars` characters long: the loop
appends a chunk only when the grown string still fits, and the final
`strip` can only shorten it. -/
theorem title_never_exceeds_cap (cands : List (String × Int))
    (maxChars : Nat) (t : String)
    (h : titleFromCandidates cands maxChars = .ok t) :
    t.length ≤ maxChars := by
  unfold titleFromCandidates at h
  cases hm : (cands.map Prod.snd).max? with
  | none => rw [hm] at h; cases h
  | some thr =>
    rw [hm] at h
    have ht : t = pyStrip (buildQuery cands thr maxChars) :=
      (Except.ok.injEq _ _ ▸ h).symm
    rw [ht]
    exact le_trans (pyStrip_length_le _)
      (foldl_titleStep_length maxChars thr cands "" (by simp))

/-- C8 (witness): the theorem applied to a concrete candidate list and
cap. -/
theorem title_never_exceeds_cap_witness : ("a" : String).length ≤ 5 :=
  title_never_exceeds_cap [("a", 1)] 5 "a" rfl

theorem prefJoin_eq_sepSpace : ∀ (l : List String), l ≠ [] →
    prefJoin l = " " ++ sepSpace l
  | [], h => absurd rfl h
  | [c], _ => by simp [prefJoin, sepSpace]
  | c :: c2 :: rest, _ => by
    have ih := prefJoin_eq_sepSpace (c2 :: rest) (by simp)
    show " " ++ c ++ prefJoin (c2 :: rest) = " " ++ (c ++ " " ++ sepSpace (c2 :: rest))
    rw [ih]
    simp [String.append_assoc]

theorem foldl_titleStep_no_overflow (maxChars : Nat) (thr : Int) :
    ∀ (l : List (String × Int)) (q : String),
      q.length +
        (prefJoin ((l.filter (fun x => decide (thr ≤ x.2))).map Prod.fst)).length
          ≤ maxChars →
      l.foldl (titleStep maxChars thr) q =
        q ++ prefJoin ((l.filter (fun x => decide (thr ≤ x.2))).map Prod.fst) := by
  intro l
  induction l with
  | nil => intro q hq; simp [prefJoin]
  | cons c t ih =>
    intro q hq
    by_cases hc : thr ≤ c.2
    · have hfil : (c :: t).filter (fun x => decide (thr ≤ x.2)) =
          c :: t.filter (fun x => decide (thr ≤ x.2)) := by
        simp [List.filter_cons, hc]
      rw [hfil] at hq ⊢
      simp only [List.map_cons, prefJoin] at hq ⊢
      have hlen : (q ++ " " ++ c.1).length ≤ maxChars := by
        simp only [String.length_append] at hq ⊢
        omega
      have hstep : titleStep maxChars thr q c = q ++ " " ++ c.1 := by
        unfold titleStep
        rw [if_pos hc, if_pos hlen]
      rw [List.foldl_cons, hstep,
        ih (q ++ " " ++ c.1) (by simp only [String.length_append] at hq ⊢; omega)]
      simp [String.append_assoc]
    · have hfil : (c :: t).filter (fun x => decide (thr ≤ x.2)) =
          t.filter (fun x => decide (thr ≤ x.2)) := by
        simp [List.filter_cons, hc]
      rw [hfil] at hq ⊢
      have hstep : titleStep maxChars thr q c = q := by
        unfold titleStep
        rw [if_neg hc]
      rw [List.foldl_cons, hstep]
      exact ih q hq

theorem pyStrip_space_cons (j : String) (hne : j.data ≠ [])
    (hh : ∀ c, j.data.head? = some c → pyIsSpace c = false)
    (hl : ∀ c, j.data.getLast? = some c → pyIsSpace c = false) :
    pyStrip (" " ++ j) = j := by
  obtain ⟨c, rest, hj⟩ : ∃ c rest, j.data = c :: rest := by
    cases hd : j.data with
    | nil => exact absurd hd hne
    | cons c rest => exact ⟨c, rest, rfl⟩
  have hc : pyIsSpace c = false := hh c (by rw [hj]; rfl)
  have hdata : (" " ++ j).data = ' ' :: j.data := by
    rw [String.data_append]
    rfl
  unfold pyStrip
  rw [hdata, hj, List.dropWhile_cons, if_pos (show pyIsSpace ' ' = true by rfl),
    List.dropWhile_cons, if_neg (by simp [hc])]
  obtain ⟨e, es, hrev⟩ : ∃ e es, (c :: rest).reverse = e :: es := by
    cases hr : (c :: rest).reverse with
    | nil => exact absurd (List.reverse_eq_nil_iff.mp hr) (by simp)
    | cons e es => exact ⟨e, es, rfl⟩
  have he : pyIsSpace e = false := by
    refine hl e ?_
    rw [hj, ← List.head?_reverse, hrev]
    rfl
  rw [hrev, List.dropWhile_cons, if_neg (by simp [he]), ← hrev,
    List.reverse_reverse, ← hj]

theorem sepSpace_clean : ∀ (l : List String), l ≠ [] →
    (∀ s ∈ l, cleanChunk s = true) →
    (sepSpace l).data ≠ [] ∧
      (∀ c, (sepSpace l).data.head? = some c → pyIsSpace c = false) ∧
      (∀ c, (sepSpace l).data.getLast? = some c → pyIsSpace c = false)
  | [], h, _ => absurd rfl h
  | [s], _, hc => by
    have hs := hc s (by simp)
    unfold cleanChunk at hs
    cases hsd : s.data with
    | nil => rw [hsd] at hs; simp at hs
    | cons a rest =>
      rw [hsd] at hs
      simp only [Bool.and_eq_true, Bool.not_eq_true'] at hs
      refine ⟨by simp [sepSpace, hsd], ?_, ?_⟩
      · intro c hcc
        simp only [sepSpace, hsd, List.head?_cons, Option.some.injEq] at hcc
        rw [← hcc]
        exact hs.1
      · intro c hcc
        simp only [sepSpace, hsd] at hcc
        have h2 := hs.2
        rw [List.getLastD_eq_getLast?, hcc] at h2
        simpa using h2
  | s :: s2 :: rest, _, hc => by
    have ih := sepSpace_clean (s2 :: rest) (by simp)
      (fun x hx => hc x (by simp [hx]))
    obtain ⟨ihne, ihh, ihl⟩ := ih
    have hs := hc s (by simp)
    unfold cleanChunk at hs
    cases hsd : s.data with
    | nil => rw [hsd] at hs; simp at hs
    | cons a arest =>
      rw [hsd] at hs
      simp only [Bool.and_eq_true, Bool.not_eq_true'] at hs
      have hdata : (sepSpace (s :: s2 :: rest)).data =
          s.data ++ [' '] ++ (sepSpace (s2 :: rest)).data := by
        show (s ++ " " ++ sepSpace (s2 :: rest)).data = _
        rw [String.data_append, String.data_append]
      refine ⟨?_, ?_, ?_⟩
      · rw [hdata, hsd]
        simp
      · intro c hcc
        rw [hdata, hsd] at hcc
        simp only [List.cons_append, List.head?_cons, Option.some.injEq] at hcc
        rw [← hcc]
        exact hs.1
      · intro c hcc
        rw [hdata, List.getLast?_append] at hcc
        cases hT : (sepSpace (s2 :: rest)).data.getLast? with
        | none =>
          exact absurd (List.getLast?_eq_none_iff.mp hT) ihne
        | some y =>
          rw [hT] at hcc
          simp only [Option.or_some, Option.some.injEq] at hcc
          exact hcc ▸ ihl y hT

/-- C4: for every non-empty list of recorded (chunk, font-size)
candidates whose chunks are normalized (nonempty, no edge whitespace, as
the scan records them), the threshold is `max` of all recorded sizes —
every size is at or below it and it is attained — and, whenever the
single-space-separated concatenation of all at-threshold chunks fits
within the cap, the built title is exactly that concatenation in
document order. -/
theorem title_threshold_and_exact_join (cands : List (String × Int))
    (maxChars : Nat) (hne : cands ≠ [])
    (hclean : ∀ c ∈ cands, cleanChunk c.1 = true) :
    ∃ thr, (cands.map Prod.snd).max? = some thr ∧
      thr ∈ cands.map Prod.snd ∧
      (∀ c ∈ cands, c.2 ≤ thr) ∧
      ((sepSpace ((cands.filter
            (fun x => decide (thr ≤ x.2))).map Prod.fst)).length + 1 ≤ maxChars →
        titleFromCandidates cands maxChars =
          .ok (sepSpace ((cands.filter
            (fun x => decide (thr ≤ x.2))).map Prod.fst))) := by
  cases hm : (cands.map Prod.snd).max? with
  | none =>
    rw [List.max?_eq_none_iff] at hm
    simp [hne] at hm
  | some thr =>
    have hmem : thr ∈ cands.map Prod.snd := List.max?_mem max_choice hm
    have hle : ∀ b ∈ cands.map Prod.snd, b ≤ thr :=
      (List.max?_le_iff (fun _ _ _ => max_le_iff) hm).mp (le_refl thr)
    refine ⟨thr, rfl, hmem, fun c hc => hle c.2 (List.mem_map_of_mem _ hc), ?_⟩
    intro hfit
    obtain ⟨cmax, hcmem, hcsnd⟩ := List.mem_map.mp hmem
    have hfmem : cmax.1 ∈ (cands.filter
        (fun x => decide (thr ≤ x.2))).map Prod.fst :=
      List.mem_map_of_mem _ (List.mem_filter.mpr ⟨hcmem, by simp [hcsnd]⟩)
    have hfne : (cands.filter (fun x => decide (thr ≤ x.2))).map Prod.fst ≠ [] :=
      List.ne_nil_of_mem hfmem
    have hfclean : ∀ s ∈ (cands.filter
        (fun x => decide (thr ≤ x.2))).map Prod.fst, cleanChunk s = true := by
      intro s hsm
      obtain ⟨x, hx, rfl⟩ := List.mem_map.mp hsm
      exact hclean x (List.mem_filter.mp hx).1
    have hsp1 : (" " : String).length = 1 := rfl
    have hsp0 : ("" : String).length = 0 := rfl
    have harith : ("" : String).length +
        (prefJoin ((cands.filter
          (fun x => decide (thr ≤ x.2))).map Prod.fst)).length ≤ maxChars := by
      rw [prefJoin_eq_sepSpace _ hfne, String.length_append]
      omega
    have hq := foldl_titleStep_no_overflow maxChars thr cands "" harith
    rw [String.empty_append] at hq
    unfold titleFromCandidates
    rw [hm]
    show Except.ok (pyStrip (cands.foldl (titleStep maxChars thr) "")) =
      Except.ok (sepSpace ((cands.filter
        (fun x => decide (thr ≤ x.2))).map Prod.fst))
    rw [hq, prefJoin_eq_sepSpace _ hfne]
    obtain ⟨h1, h2, h3⟩ := sepSpace_clean _ hfne hfclean
    rw [pyStrip_space_cons _ h1 h2 h3]

/-- C4 (witness): the theorem applied at concrete candidates — two
chunks at the maximal size 12 and one smaller body chunk — produces
exactly the space-separated concatenation of the two threshold
chunks. -/
theorem title_threshold_and_exact_join_witness :
    titleFromCandidates [("Deep", 12), ("Learning", 12), ("body text here", 9)]
        100 = .ok "Deep Learning" := by
  obtain ⟨thr, hm, -, -, hfit⟩ := title_threshold_and_exact_join
    [("Deep", 12), ("Learning", 12), ("body text here", 9)] 100
    (by simp) (by decide)
  have hev : (List.map Prod.snd
      [("Deep", (12 : Int)), ("Learning", 12), ("body text here", 9)]).max? =
        some 12 := rfl
  have h12 : (12 : Int) = thr := Option.some.inj (hev.symm.trans hm)
  subst h12
  rw [hfit (by decide)]
  rfl

end Pdflu
